import Mathlib

/-!
Verification of the stock watchlist notifier (stockbot.py).

The program maintains a watchlist of stock tickers driven by chat commands,
resolves regular-session and extended-hours prices per symbol with a
primary source and a batched snapshot fallback, and sends a formatted daily
report inside a fixed local-time window at most once per calendar date.

This file is a shallow embedding of the program's logic:
* Python strings are Lean `String`s, manipulated through their character
  lists so that everything evaluates in the kernel;
* the mutable state dictionary is the record `BotState`, where an `Option`
  field is `none` exactly when the corresponding key is missing (a direct
  subscript of a missing key is a KeyError, modelled by the `raised` flag);
* chat transport is external: inbound updates are given as data, outbound
  `tg_send` calls are recorded in a `sent` list, and the success of the
  report send is an explicit boolean input;
* prices are rationals, and each upstream fetch is an `Option` input
  (`none` = the call raised, returned `None`, or produced an empty frame).
-/

namespace StockBot

/-- Python `str.strip()` (ASCII whitespace, which is all the program uses). -/
def pyStrip (s : String) : String :=
  ⟨((s.data.dropWhile Char.isWhitespace).reverse.dropWhile Char.isWhitespace).reverse⟩

/-- Characters kept by `normalize_ticker`'s regex `[A-Za-z0-9\.\-\_]`. -/
def isTickerChar (c : Char) : Bool :=
  ('A' ≤ c && c ≤ 'Z') || ('a' ≤ c && c ≤ 'z') || ('0' ≤ c && c ≤ '9')
    || c == '.' || c == '-' || c == '_'

/-- `normalize_ticker(s)`: strip, drop every character outside
`[A-Za-z0-9._-]`, uppercase. -/
def normalize_ticker (s : String) : String :=
  ⟨((pyStrip s).data.filter isTickerChar).map Char.toUpper⟩

/-- Separator class of `re.split(r"[,\s]+", args)`: comma or whitespace. -/
def isSepChar (c : Char) : Bool := c == ',' || c.isWhitespace

/-- Maximal runs of non-separator characters (the accumulator holds the
current run reversed).  `re.split(r"[,\s]+", ...)` can also produce empty
fragments at the ends, but the caller filters out every token whose
normalization is empty, so dropping them here is equivalent. -/
def splitRunsAux : List Char → List Char → List (List Char)
  | acc, [] => if acc.isEmpty then [] else [acc.reverse]
  | acc, c :: cs =>
    if isSepChar c then
      if acc.isEmpty then splitRunsAux [] cs else acc.reverse :: splitRunsAux [] cs
    else splitRunsAux (c :: acc) cs

/-- `[normalize_ticker(x) for x in re.split(r"[,\s]+", args) if normalize_ticker(x)]`. -/
def tokenizeTickers (args : String) : List String :=
  ((splitRunsAux [] args.data).map (fun cs => normalize_ticker ⟨cs⟩)).filter
    (fun t => t != "")

/-- Python `s.split(maxsplit=1)` for a string with no leading whitespace:
the first whitespace-free token, and the remainder after the first
whitespace run. When the string has no whitespace the remainder is empty,
which is how callers detect that `split` returned a single part. -/
def splitFirstWs (s : String) : String × String :=
  (⟨s.data.takeWhile (fun c => !c.isWhitespace)⟩,
   ⟨(s.data.dropWhile (fun c => !c.isWhitespace)).dropWhile Char.isWhitespace⟩)

/-- Python `str.lower()` on the command token (ASCII). -/
def pyLower (s : String) : String := ⟨s.data.map Char.toLower⟩

/-- Result of `parse_cmd`: `(cmd, args_str, tickers_list)`. -/
structure Parsed where
  cmd : Option String
  args : String
  tickers : List String
  deriving Repr, DecidableEq

/-- `parse_cmd(text)`: `None` command unless the stripped text starts with
`/`; otherwise split off the lowercased command, strip the remainder, and
tokenize it into normalized tickers. -/
def parse_cmd (text : String) : Parsed :=
  let t := pyStrip text
  match t.data with
  | '/' :: _ =>
    let p := splitFirstWs t
    let args := pyStrip p.2
    let tickers := if args = "" then [] else tokenizeTickers args
    ⟨some (pyLower p.1), args, tickers⟩
  | _ => ⟨none, "", []⟩

example : normalize_ticker " mu " = "MU" := by decide
example : normalize_ticker "@@@" = "" := by decide
example : parse_cmd "/add MU, nvda" = ⟨some "/add", "MU, nvda", ["MU", "NVDA"]⟩ := by
  decide
example : parse_cmd "hello" = ⟨none, "", []⟩ := by decide

/-! ### String ordering

Python compares strings lexicographically by Unicode code point; `sorted`
uses that order.  Mathlib's `String` order is not kernel-reducible, so we
define the same lexicographic order directly on character lists. -/

/-- Lexicographic comparison of character lists by code point (the order
Python's `sorted` uses on strings). -/
def strLeCh : List Char → List Char → Bool
  | [], _ => true
  | _ :: _, [] => false
  | a :: as, b :: bs => if a = b then strLeCh as bs else decide (a.toNat < b.toNat)

/-- Python string `<=` (code-point lexicographic). -/
def strLe (a b : String) : Bool := strLeCh a.data b.data

theorem strLeCh_refl : ∀ as, strLeCh as as = true
  | [] => rfl
  | _ :: as => by simp [strLeCh, strLeCh_refl as]

theorem strLeCh_total : ∀ as bs, strLeCh as bs = true ∨ strLeCh bs as = true
  | [], _ => Or.inl rfl
  | _ :: _, [] => Or.inr rfl
  | a :: as, b :: bs => by
    by_cases hab : a = b
    · subst hab
      simpa [strLeCh] using strLeCh_total as bs
    · have hne : b ≠ a := fun h => hab h.symm
      simp only [strLeCh, if_neg hab, if_neg hne, decide_eq_true_eq]
      have : a.toNat ≠ b.toNat := fun h => hab (Char.eq_of_val_eq (UInt32.ext h))
      omega

theorem strLeCh_antisymm : ∀ as bs, strLeCh as bs = true → strLeCh bs as = true →
    as = bs
  | [], [], _, _ => rfl
  | [], _ :: _, _, h => by simp [strLeCh] at h
  | _ :: _, [], h, _ => by simp [strLeCh] at h
  | a :: as, b :: bs, h₁, h₂ => by
    by_cases hab : a = b
    · subst hab
      simp only [strLeCh, if_pos rfl] at h₁ h₂
      exact congrArg (a :: ·) (strLeCh_antisymm as bs h₁ h₂)
    · have hne : b ≠ a := fun h => hab h.symm
      simp only [strLeCh, if_neg hab, if_neg hne, decide_eq_true_eq] at h₁ h₂
      omega

theorem strLeCh_trans : ∀ as bs cs, strLeCh as bs = true → strLeCh bs cs = true →
    strLeCh as cs = true
  | [], _, _, _, _ => rfl
  | _ :: _, [], _, h, _ => by simp [strLeCh] at h
  | _ :: _, _ :: _, [], _, h => by simp [strLeCh] at h
  | a :: as, b :: bs, c :: cs, h₁, h₂ => by
    by_cases hab : a = b
    · subst hab
      by_cases hac : a = c
      · subst hac
        simp only [strLeCh, if_pos rfl] at h₁ h₂ ⊢
        exact strLeCh_trans as bs cs h₁ h₂
      · simp only [strLeCh, if_pos rfl, if_neg hac] at h₁ h₂ ⊢
        exact h₂
    · by_cases hbc : b = c
      · subst hbc
        simp only [strLeCh, if_pos rfl, if_neg hab] at h₁ h₂ ⊢
        exact h₁
      · by_cases hac : a = c
        · subst hac
          simp only [strLeCh, if_neg hab, if_neg hbc, decide_eq_true_eq] at h₁ h₂
          omega
        · simp only [strLeCh, if_neg hab, if_neg hbc, if_neg hac,
            decide_eq_true_eq] at h₁ h₂ ⊢
          omega

theorem strLe_antisymm (a b : String) (h₁ : strLe a b = true) (h₂ : strLe b a = true) :
    a = b := by
  cases a; cases b
  exact congrArg String.mk (strLeCh_antisymm _ _ h₁ h₂)

instance : IsTotal String (fun a b => strLe a b = true) :=
  ⟨fun a b => strLeCh_total a.data b.data⟩

instance : IsTrans String (fun a b => strLe a b = true) :=
  ⟨fun a b c => strLeCh_trans a.data b.data c.data⟩

instance : IsAntisymm String (fun a b => strLe a b = true) :=
  ⟨strLe_antisymm⟩

instance : IsRefl String (fun a b => strLe a b = true) :=
  ⟨fun a => strLeCh_refl a.data⟩

/-- Python `sorted(set(l))`: the strictly increasing enumeration of the
distinct elements of `l`. -/
def pySortedSet (l : List String) : List String :=
  List.insertionSort (fun a b => strLe a b = true) l.dedup

example : pySortedSet ["MU", "AAPL", "MU"] = ["AAPL", "MU"] := by decide

theorem mem_pySortedSet {x : String} {l : List String} :
    x ∈ pySortedSet l ↔ x ∈ l := by
  unfold pySortedSet
  rw [(List.perm_insertionSort _ _).mem_iff]
  exact List.mem_dedup

theorem nodup_pySortedSet (l : List String) : (pySortedSet l).Nodup :=
  (List.perm_insertionSort _ _).nodup_iff.mpr (List.nodup_dedup l)

theorem sorted_pySortedSet (l : List String) :
    (pySortedSet l).Sorted (fun a b => strLe a b = true) :=
  List.sorted_insertionSort _ _

theorem pySortedSet_eq_self {l : List String}
    (hs : l.Sorted (fun a b => strLe a b = true)) (hn : l.Nodup) :
    pySortedSet l = l :=
  List.eq_of_perm_of_sorted
    ((List.perm_insertionSort _ _).trans (by rw [List.dedup_eq_self.mpr hn]))
    (sorted_pySortedSet l) hs

/-- Two sorted duplicate-free lists with the same members are equal; used to
identify any `pySortedSet` with a given canonical list. -/
theorem pySortedSet_eq_of_mem_iff {l m : List String}
    (hs : m.Sorted (fun a b => strLe a b = true)) (hn : m.Nodup)
    (h : ∀ x, x ∈ l ↔ x ∈ m) : pySortedSet l = m := by
  refine List.eq_of_perm_of_sorted ?_ (sorted_pySortedSet l) hs
  refine (List.perm_ext_iff_of_nodup (nodup_pySortedSet l) hn).mpr ?_
  intro a
  rw [mem_pySortedSet]
  exact h a

/-! ### State, configuration, inbound updates -/

/-- The persisted `state.json` dictionary.  An `Option` field is `none`
exactly when the key is missing from the dictionary (for `chat_id` this
also covers an explicit `null`, which `state.get` cannot distinguish from a
missing key).  The alias dictionary `names` is an association list with
unique keys; `names = none` also stands for a present non-dict value, which
every reader treats like a missing key. -/
structure BotState where
  last_update_id : Option Int
  chat_id : Option Int
  tickers : Option (List String)
  names : Option (List (String × String))
  last_sent_kst_date : Option String
  force_report : Bool
  deriving Repr, DecidableEq

/-- Environment configuration: `TELEGRAM_ALLOWED_USER_ID` and the optional
`TELEGRAM_FORCE_CHAT_ID` (`none` when the variable is unset or empty). -/
structure Config where
  allowed_user_id : Int
  force_chat_id : Option Int
  deriving Repr, DecidableEq

/-- The fields of a Telegram message the program reads:
`msg.get("from", {}).get("id")`, `(msg.get("chat") or {}).get("id")`,
`msg.get("text", "")`. -/
structure Message where
  from_id : Option Int
  chat_id : Option Int
  text : String
  deriving Repr, DecidableEq

/-- One update: `u.get("update_id", 0)` and
`u.get("message") or u.get("edited_message")` (already coalesced). -/
structure Update where
  update_id : Option Int
  message : Option Message
  deriving Repr, DecidableEq

/-- An outbound `tg_send(chat_id, text)` call. -/
abbrev Sent := Option Int × String

/-- Result of processing one update: the state after all mutations, the
replies sent, and whether a KeyError escaped (mutations made before the
raise are kept, as the Python dict is mutated in place). -/
structure StepRes where
  state : BotState
  sent : List Sent
  raised : Bool
  deriving Repr, DecidableEq

/-! ### Alias dictionary operations (Python dict with string keys) -/

/-- `names.get(k)`. -/
def alookup : List (String × String) → String → Option String
  | [], _ => none
  | p :: ps, k => if p.1 = k then some p.2 else alookup ps k

/-- `k in names`. -/
def amem (ns : List (String × String)) (k : String) : Bool :=
  (alookup ns k).isSome

/-- `del names[k]` (keys are unique, so filtering all occurrences of the
key agrees with deleting the single entry). -/
def aerase (ns : List (String × String)) (k : String) : List (String × String) :=
  ns.filter (fun p => p.1 != k)

/-- `names[k] = v`: replace in place if the key exists, else append. -/
def aset : List (String × String) → String → String → List (String × String)
  | [], k, v => [(k, v)]
  | p :: ps, k, v => if p.1 = k then (k, v) :: ps else p :: aset ps k v

/-- `sorted(names.items())`: sort key/value pairs lexicographically. -/
def pairLe (p q : String × String) : Prop :=
  (strLe p.1 q.1 = true ∧ p.1 ≠ q.1) ∨ (p.1 = q.1 ∧ strLe p.2 q.2 = true)

instance : DecidableRel pairLe := fun p q => by unfold pairLe; infer_instance

def sortPairs (ns : List (String × String)) : List (String × String) :=
  List.insertionSort pairLe ns

/-! ### Command handlers (`handle_updates`, lines 140–246) -/

def joinComma (l : List String) : String := String.intercalate ", " l

def startText : String := "OK. /list, /add TICKER, /del TICKER 를 사용할 수 있어요."
def nameUsage : String := "Usage: /name TICKER 한국명 (예: /name MU 마이크론)"
def unnameUsage : String := "Usage: /unname TICKER (예: /unname MU)"
def testText : String := "OK. 다음 실행에서 리포트를 즉시 생성해 보낼게요."

/-- `/list`: reply with the current tickers, never mutating. -/
def cmdList (st : BotState) (chat : Option Int) : StepRes :=
  let cur := st.tickers.getD []
  ⟨st, [(chat, "Tickers: " ++ (if cur.isEmpty then "(empty)" else joinComma cur))],
   false⟩

/-- `/add`: union the tokens into the ticker set, re-sort, store only on
change; then reply by reading `state["tickers"]` DIRECTLY — a KeyError when
the key is still missing. -/
def cmdAdd (st : BotState) (chat : Option Int) (toks : List String) : StepRes :=
  let new_list := pySortedSet (st.tickers.getD [] ++ toks)
  let st' := if new_list ≠ st.tickers.getD [] then { st with tickers := some new_list }
             else st
  match st'.tickers with
  | some l => ⟨st', [(chat, "Updated: " ++ joinComma l)], false⟩
  | none => ⟨st', [], true⟩

/-- `/del`: set-difference, re-sort, store only on change; the reply reads
`state["tickers"]` directly, like `/add`. -/
def cmdDel (st : BotState) (chat : Option Int) (toks : List String) : StepRes :=
  let new_list := pySortedSet ((st.tickers.getD []).filter (fun t => !(toks.contains t)))
  let st' := if new_list ≠ st.tickers.getD [] then { st with tickers := some new_list }
             else st
  match st'.tickers with
  | some l =>
    ⟨st', [(chat, "Updated: " ++ (if l.isEmpty then "(empty)" else joinComma l))], false⟩
  | none => ⟨st', [], true⟩

/-- `/names`: reply with sorted `key=value` pairs or the empty marker. -/
def cmdNames (st : BotState) (chat : Option Int) : StepRes :=
  let ns := st.names.getD []
  ⟨st,
   [(chat, if ns.isEmpty then "Names: (empty)"
           else "Names: " ++ joinComma ((sortPairs ns).map (fun q => q.1 ++ "=" ++ q.2)))],
   false⟩

/-- `/name TICKER display…`: malformed input replies usage with no
mutation; otherwise store the alias (creating the dict if missing). -/
def cmdName (st : BotState) (chat : Option Int) (args : String) : StepRes :=
  if args = "" then ⟨st, [(chat, nameUsage)], false⟩
  else
    let q := splitFirstWs args
    if q.2 = "" then ⟨st, [(chat, nameUsage)], false⟩
    else
      let t := normalize_ticker q.1
      let nm := pyStrip q.2
      if t = "" ∨ nm = "" then ⟨st, [(chat, nameUsage)], false⟩
      else
        let st1 := if st.names = none then { st with names := some [] } else st
        let ns := st1.names.getD []
        let st2 := if alookup ns t ≠ some nm then { st1 with names := some (aset ns t nm) }
                   else st1
        ⟨st2, [(chat, "OK: " ++ t ++ " -> " ++ nm)], false⟩

/-- The removal loop of `/unname`: in token order, delete each key that is
(still) present and record it. -/
def unnameRun : List (String × String) → List String → List (String × String) × List String
  | ns, [] => (ns, [])
  | ns, t :: ts =>
    if amem ns t then
      let r := unnameRun (aerase ns t) ts
      (r.1, t :: r.2)
    else unnameRun ns ts

/-- `/unname T1 T2 …`. -/
def cmdUnname (st : BotState) (chat : Option Int) (toks : List String) : StepRes :=
  if toks.isEmpty then ⟨st, [(chat, unnameUsage)], false⟩
  else
    match st.names with
    | none => ⟨st, [(chat, "Names: (empty)")], false⟩
    | some ns =>
      if ns.isEmpty then ⟨st, [(chat, "Names: (empty)")], false⟩
      else
        let r := unnameRun ns toks
        ⟨{ st with names := some r.1 },
         [(chat, if r.2.isEmpty then "No matches." else "Removed: " ++ joinComma r.2)],
         false⟩

/-- `/test`: set the force-report flag (mis-indented in the source, where
this branch is a syntax error; modelled at its intended place). -/
def cmdTest (st : BotState) (chat : Option Int) : StepRes :=
  ⟨{ st with force_report := true }, [(chat, testText)], false⟩

/-- The command dispatch of the update loop; an unknown or absent command
falls through every branch and does nothing. -/
def execCmd (st : BotState) (chat : Option Int) (p : Parsed) : StepRes :=
  if p.cmd = some "/start" then ⟨st, [(chat, startText)], false⟩
  else if p.cmd = some "/list" then cmdList st chat
  else if p.cmd = some "/add" then cmdAdd st chat p.tickers
  else if p.cmd = some "/del" then cmdDel st chat p.tickers
  else if p.cmd = some "/names" then cmdNames st chat
  else if p.cmd = some "/name" then cmdName st chat p.args
  else if p.cmd = some "/unname" then cmdUnname st chat p.tickers
  else if p.cmd = some "/test" then cmdTest st chat
  else ⟨st, [], false⟩

/-- `FORCE_CHAT_ID and chat_id != FORCE_CHAT_ID`: Python truthiness makes a
lock of `0` (or `None`) skip the check. -/
def forceChatBlocks (fc : Option Int) (chat : Option Int) : Bool :=
  match fc with
  | none => false
  | some c => c != 0 && chat != some c

/-- The body of the update loop after the watermark line: authorization,
chat-id learning, then command dispatch. -/
def processMessage (cfg : Config) (st : BotState) (msg : Message) : StepRes :=
  if msg.from_id ≠ some cfg.allowed_user_id then ⟨st, [], false⟩
  else if forceChatBlocks cfg.force_chat_id msg.chat_id then ⟨st, [], false⟩
  else
    let st1 := if st.chat_id ≠ msg.chat_id then { st with chat_id := msg.chat_id } else st
    execCmd st1 msg.chat_id (parse_cmd msg.text)

/-- Line 115: `state["last_update_id"] = max(state.get("last_update_id", 0),
u.get("update_id", 0))`. -/
def watermark (st : BotState) (u : Update) : BotState :=
  { st with last_update_id := some (max (st.last_update_id.getD 0) (u.update_id.getD 0)) }

/-- One iteration of the update loop. -/
def processUpdate (cfg : Config) (st : BotState) (u : Update) : StepRes :=
  let st1 := watermark st u
  match u.message with
  | none => ⟨st1, [], false⟩
  | some msg => processMessage cfg st1 msg

/-- The whole loop; a raise aborts the remaining updates (mutations so far
are kept, since the dict is shared). -/
def runUpdates (cfg : Config) : BotState → List Update → StepRes
  | st, [] => ⟨st, [], false⟩
  | st, u :: us =>
    let r := processUpdate cfg st u
    if r.raised then ⟨r.state, r.sent, true⟩
    else
      let rest := runUpdates cfg r.state us
      ⟨rest.state, r.sent ++ rest.sent, rest.raised⟩

/-- Result of `handle_updates`: `changed` is its return value (meaningless
when `raised`, since the exception replaces the return). -/
structure HRes where
  state : BotState
  sent : List Sent
  changed : Bool
  raised : Bool
  deriving Repr, DecidableEq

/-- `handle_updates(state)`: `fetch = none` models a failing
`tg_get_updates` call (the exception propagates with no state change);
an empty update list returns `False` at once.  When the loop runs, the
watermark line has set `changed = True` before anything can raise, so a
normal return yields `True`. -/
def handle_updates (cfg : Config) (st : BotState) (fetch : Option (List Update)) : HRes :=
  match fetch with
  | none => ⟨st, [], false, true⟩
  | some us =>
    if us.isEmpty then ⟨st, [], false, false⟩
    else
      let r := runUpdates cfg st us
      ⟨r.state, r.sent, !r.raised, r.raised⟩

example :
    (processUpdate ⟨1, none⟩ ⟨some 3, none, some ["MU"], none, none, false⟩
      ⟨some 7, some ⟨some 1, some 42, "/add nvda"⟩⟩) =
    ⟨⟨some 7, some 42, some ["MU", "NVDA"], none, none, false⟩,
     [(some 42, "Updated: MU, NVDA")], false⟩ := by decide

/-! ### Price resolution (`get_close_and_prev_close_yfinance`,
`get_extended_last_yfinance`, `yahoo_quote`, and the per-ticker fallback
blocks of `build_report`) -/

/-- One row of the batched `yahoo_quote` response; every field optional. -/
structure QuoteRow where
  regularMarketPreviousClose : Option ℚ
  regularMarketPrice : Option ℚ
  postMarketPrice : Option ℚ
  deriving Repr, DecidableEq

/-- `get_close_and_prev_close_yfinance(symbol)`.  The input is the daily
series as `(date, close)` rows in chronological order; `none` stands for a
raising call or a `None` frame.  The function raises (`none`) unless the
series has at least two rows, and otherwise returns the last row's date and
the two most recent closes (`iloc[-1]`, `iloc[-2]`). -/
def get_close_and_prev_close_yfinance (df : Option (List (String × ℚ))) :
    Option (String × ℚ × ℚ) :=
  match df with
  | none => none
  | some rows =>
    match rows.reverse with
    | (day, c) :: (_, p) :: _ => some (day, c, p)
    | _ => none

/-- `get_extended_last_yfinance(symbol)`: last bar of the 1-minute series
with extended sessions.  Rows are `(timestamp, close)`; the timestamp is
passed through (the source only re-labels its time zone for display). -/
def get_extended_last_yfinance (df : Option (List (Int × ℚ))) : Option (Int × ℚ) :=
  match df with
  | none => none
  | some rows =>
    match rows.reverse with
    | (ts, px) :: _ => some (ts, px)
    | [] => none

/-- Regular-session resolution for one symbol (`build_report` lines
334–344): primary daily series, else the snapshot row's
`regularMarketPreviousClose`/`regularMarketPrice`, both required; the
result is `(close, prev_close)` or absent. -/
def resolveRegular (df : Option (List (String × ℚ))) (q : Option QuoteRow) :
    Option (ℚ × ℚ) :=
  match get_close_and_prev_close_yfinance df with
  | some (_, c, p) => some (c, p)
  | none =>
    match q with
    | none => none
    | some row =>
      match row.regularMarketPreviousClose, row.regularMarketPrice with
      | some pc, some rp => some (rp, pc)
      | _, _ => none

/-- Extended-hours resolution for one symbol (`build_report` lines
346–357): primary intraday series, else only the snapshot's
`postMarketPrice`; an absent after-hours value stays absent. -/
def resolveExtended (df : Option (List (Int × ℚ))) (q : Option QuoteRow) : Option ℚ :=
  match get_extended_last_yfinance df with
  | some (_, px) => some px
  | none =>
    match q with
    | none => none
    | some row => row.postMarketPrice

/-! ### Report formatting -/

/-- Round to the nearest integer, ties to even — the rounding of Python's
fixed-point float formatting (exact here because prices are rationals). -/
def roundHalfEven (x : ℚ) : Int :=
  let f := ⌊x⌋
  let r := x - f
  if r < 1/2 then f
  else if 1/2 < r then f + 1
  else if f % 2 = 0 then f else f + 1

/-- Python `f"{x:+.1f}"`: forced sign, one decimal place. -/
def fmtPct (x : ℚ) : String :=
  let sign := if x < 0 then "-" else "+"
  let n := (roundHalfEven (|x| * 10)).toNat
  sign ++ toString (n / 10) ++ "." ++ toString (n % 10)

def insufficientLine (name : String) : String := name ++ " (데이터 부족)"

/-- The per-ticker output block (`build_report` lines 359–375).  `reg` is
`(close, prev_close)`; the two are assigned together in the source, so they
are present or absent together. -/
def tickerLine (name : String) (reg : Option (ℚ × ℚ)) (ext : Option ℚ) : String :=
  match reg with
  | none => insufficientLine name
  | some (c, p) =>
    if p = 0 then
      match ext with
      | some e =>
        if c ≠ 0 then name ++ " 마감 (N/A), 애프터 " ++ fmtPct ((e / c - 1) * 100) ++ "%"
        else insufficientLine name
      | none => insufficientLine name
    else
      match ext with
      | some e =>
        if c ≠ 0 then
          name ++ " " ++ fmtPct ((c / p - 1) * 100) ++ "% 마감, 애프터 "
            ++ fmtPct ((e / c - 1) * 100) ++ "%"
        else name ++ " " ++ fmtPct ((c / p - 1) * 100) ++ "% 마감"
      | none => name ++ " " ++ fmtPct ((c / p - 1) * 100) ++ "% 마감"

/-- The upstream market data for one invocation: per-symbol daily series,
per-symbol intraday series, and the batched snapshot keyed by symbol.  A
failing `yahoo_quote` call is the constantly-`none` snapshot (the source
replaces the whole map by `{}`). -/
structure Market where
  daily : String → Option (List (String × ℚ))
  intra : String → Option (List (Int × ℚ))
  quote : String → Option QuoteRow

def weekdayKr : Fin 7 → String
  | 0 => "월" | 1 => "화" | 2 => "수" | 3 => "목" | 4 => "금" | 5 => "토" | 6 => "일"

/-- Header line: `[{month}월{day}일 {weekday}요일 미국 주식 마감]`. -/
def reportHeader (month day : Nat) (wk : Fin 7) : String :=
  "[" ++ toString month ++ "월" ++ toString day ++ "일 " ++ weekdayKr wk
    ++ "요일 미국 주식 마감]"

/-- One report line for `sym`: display name from the alias map (falling
back to the symbol), then the resolved percentages. -/
def reportLine (md : Market) (names : List (String × String)) (sym : String) : String :=
  tickerLine ((alookup names sym).getD sym)
    (resolveRegular (md.daily sym) (md.quote sym))
    (resolveExtended (md.intra sym) (md.quote sym))

/-- `build_report(state)` (lines 309–377). -/
def build_report (md : Market) (month day : Nat) (wk : Fin 7) (st : BotState) : String :=
  let tickers := ((st.tickers.getD []).map normalize_ticker).filter (fun t => t != "")
  if tickers.isEmpty then "No tickers."
  else
    let names := st.names.getD []
    String.intercalate "\n" (reportHeader month day wk :: tickers.map (reportLine md names))

/-! ### Send window and `main` -/

/-- `in_send_window_kst(now)`: KST hour 6, minute 30–45 inclusive. -/
def in_send_window_kst (hour minute : Nat) : Bool :=
  if hour ≠ 6 then false
  else decide (30 ≤ minute ∧ minute ≤ 45)

/-- Outcome of one `main()` invocation. -/
structure MainRes where
  state : BotState
  sent : List Sent
  sendAttempted : Bool
  reportSent : Bool
  saved : Bool
  deriving Repr, DecidableEq

/-- `main()` (lines 394–430).  External effects as inputs: `fetch` is the
`tg_get_updates` outcome, `force_send` the `FORCE_SEND=1` override,
`hour`/`minute`/`today` the current KST clock and date, `sendOk` whether
the report `tg_send` succeeds, `md` the market data.  `sendAttempted`
records that the report `tg_send` was called; `saved` that `save_state`
ran. -/
def pyMain (cfg : Config) (fetch : Option (List Update)) (force_send : Bool)
    (hour minute : Nat) (today : String) (sendOk : Bool)
    (md : Market) (month day : Nat) (wk : Fin 7) (st0 : BotState) : MainRes :=
  let h := handle_updates cfg st0 fetch
  let st1 := h.state
  let state_changed := h.changed && !h.raised
  if (force_send = true ∨ in_send_window_kst hour minute = true)
      ∧ st1.last_sent_kst_date ≠ some today then
    match st1.chat_id with
    | none => ⟨st1, h.sent, false, false, state_changed⟩
    | some cid =>
      let msg := build_report md month day wk st1
      if sendOk then
        ⟨{ st1 with last_sent_kst_date := some today }, h.sent ++ [(some cid, msg)],
         true, true, true⟩
      else ⟨st1, h.sent ++ [(some cid, msg)], true, false, state_changed⟩
  else ⟨st1, h.sent, false, false, state_changed⟩

/-- Evaluation helper for `roundHalfEven` in the no-tie, round-down case. -/
theorem roundHalfEven_eval (x : ℚ) (f : ℤ) (hf : ⌊x⌋ = f) (hlt : x - f < 1/2) :
    roundHalfEven x = f := by
  unfold roundHalfEven
  rw [hf, if_pos hlt]

example : in_send_window_kst 6 45 = true ∧ in_send_window_kst 6 46 = false := by decide

/-! ### The update-id watermark (claim C1) -/

/-- The state written by `/add` is the conditional re-sorted union. -/
theorem cmdAdd_state (st : BotState) (chat : Option Int) (toks : List String) :
    (cmdAdd st chat toks).state =
      if pySortedSet (st.tickers.getD [] ++ toks) ≠ st.tickers.getD []
      then { st with tickers := some (pySortedSet (st.tickers.getD [] ++ toks)) }
      else st := by
  simp only [cmdAdd]
  repeat' split
  all_goals rfl

/-- The state written by `/del` is the conditional re-sorted difference. -/
theorem cmdDel_state (st : BotState) (chat : Option Int) (toks : List String) :
    (cmdDel st chat toks).state =
      if pySortedSet ((st.tickers.getD []).filter (fun t => !(toks.contains t)))
          ≠ st.tickers.getD []
      then { st with tickers := some (pySortedSet ((st.tickers.getD []).filter (fun t => !(toks.contains t)))) }
      else st := by
  simp only [cmdDel]
  repeat' split
  all_goals rfl

theorem cmdAdd_last_update_id (st : BotState) (chat : Option Int) (toks : List String) :
    (cmdAdd st chat toks).state.last_update_id = st.last_update_id := by
  rw [cmdAdd_state]
  split <;> rfl

theorem cmdDel_last_update_id (st : BotState) (chat : Option Int) (toks : List String) :
    (cmdDel st chat toks).state.last_update_id = st.last_update_id := by
  rw [cmdDel_state]
  split <;> rfl

theorem cmdName_last_update_id (st : BotState) (chat : Option Int) (args : String) :
    (cmdName st chat args).state.last_update_id = st.last_update_id := by
  simp only [cmdName]
  repeat' split
  all_goals rfl

theorem cmdUnname_last_update_id (st : BotState) (chat : Option Int) (toks : List String) :
    (cmdUnname st chat toks).state.last_update_id = st.last_update_id := by
  simp only [cmdUnname]
  repeat' split
  all_goals rfl

theorem execCmd_last_update_id (st : BotState) (chat : Option Int) (p : Parsed) :
    (execCmd st chat p).state.last_update_id = st.last_update_id := by
  simp only [execCmd]
  split_ifs <;>
    first
      | rfl
      | exact cmdAdd_last_update_id st chat p.tickers
      | exact cmdDel_last_update_id st chat p.tickers
      | exact cmdName_last_update_id st chat p.args
      | exact cmdUnname_last_update_id st chat p.tickers

theorem processMessage_last_update_id (cfg : Config) (st : BotState) (msg : Message) :
    (processMessage cfg st msg).state.last_update_id = st.last_update_id := by
  simp only [processMessage]
  split_ifs <;> first | rfl | (rw [execCmd_last_update_id])

theorem processUpdate_last_update_id (cfg : Config) (st : BotState) (u : Update) :
    (processUpdate cfg st u).state.last_update_id
      = some (max (st.last_update_id.getD 0) (u.update_id.getD 0)) := by
  unfold processUpdate
  cases u.message with
  | none => rfl
  | some msg => rw [processMessage_last_update_id]; rfl

theorem runUpdates_last_mono (cfg : Config) (st : BotState) (us : List Update) :
    st.last_update_id.getD 0 ≤ (runUpdates cfg st us).state.last_update_id.getD 0 := by
  induction us generalizing st with
  | nil => exact le_refl _
  | cons v vs ih =>
    have hv := processUpdate_last_update_id cfg st v
    simp only [runUpdates]
    split
    · rw [hv]
      exact le_max_left _ _
    · refine le_trans ?_ (ih (processUpdate cfg st v).state)
      rw [hv]
      exact le_max_left _ _

/-- C1: each processed update sets `lastUpdateId` to the maximum of its
current value and the update's own id, unconditionally (this happens before
the authorization check, so it also holds for unauthorized senders), and
consequently the watermark is monotone non-decreasing across any processed
sequence of updates and across any whole `handle_updates` invocation. -/
theorem C1_lastUpdateId_monotone (cfg : Config) (st : BotState) (u : Update)
    (us : List Update) (fetch : Option (List Update)) :
    (processUpdate cfg st u).state.last_update_id
        = some (max (st.last_update_id.getD 0) (u.update_id.getD 0))
    ∧ st.last_update_id.getD 0 ≤ (runUpdates cfg st us).state.last_update_id.getD 0
    ∧ st.last_update_id.getD 0
        ≤ (handle_updates cfg st fetch).state.last_update_id.getD 0 := by
  refine ⟨processUpdate_last_update_id cfg st u, runUpdates_last_mono cfg st us, ?_⟩
  cases fetch with
  | none => exact le_refl _
  | some vs =>
    simp only [handle_updates]
    split
    · exact le_refl _
    · exact runUpdates_last_mono cfg st vs

/-! ### The `/add`–`/del` KeyError (claim C10) -/

/-- C10: on a state whose dictionary has no `"tickers"` key, an authorized
`/add` with no valid ticker tokens (and likewise a `/del`) leaves the empty
ticker set unchanged, so nothing is stored, and the reply construction then
reads `state["tickers"]` directly and raises a KeyError instead of sending
the updated-list reply. -/
theorem C10_add_keyerror :
    (processUpdate ⟨1, none⟩ ⟨none, none, none, none, none, false⟩
        ⟨some 5, some ⟨some 1, some 99, "/add"⟩⟩).raised = true
    ∧ (processUpdate ⟨1, none⟩ ⟨none, none, none, none, none, false⟩
        ⟨some 5, some ⟨some 1, some 99, "/add"⟩⟩).sent = []
    ∧ (processUpdate ⟨1, none⟩ ⟨none, none, none, none, none, false⟩
        ⟨some 6, some ⟨some 1, some 99, "/del MU"⟩⟩).raised = true
    ∧ (processUpdate ⟨1, none⟩ ⟨none, none, none, none, none, false⟩
        ⟨some 6, some ⟨some 1, some 99, "/del MU"⟩⟩).sent = [] := by decide

/-! ### Regular-session resolution and fallback (claim C4) -/

/-- C4: regular-session resolution uses the daily series when it has at
least two rows, taking the two most recent closes; when the primary raises
or is under-length it falls back to the snapshot row and uses
`regularMarketPreviousClose`/`regularMarketPrice` only when both are
present, the result being absent (never zero) otherwise; and an absent,
empty, or single-row series always makes the primary fail. -/
theorem C4_regular_fallback (df : Option (List (String × ℚ))) (q : Option QuoteRow)
    (rest : List (String × ℚ)) (d0 d1 : String) (c p : ℚ) :
    (df = some (rest ++ [(d1, p), (d0, c)]) → resolveRegular df q = some (c, p))
    ∧ (get_close_and_prev_close_yfinance df = none →
        resolveRegular df q =
          match q with
          | some row =>
            match row.regularMarketPreviousClose, row.regularMarketPrice with
            | some pc, some rp => some (rp, pc)
            | _, _ => none
          | none => none)
    ∧ ((df = none ∨ ∃ rows, rows.length < 2 ∧ df = some rows) →
        get_close_and_prev_close_yfinance df = none) := by
  refine ⟨?_, ?_, ?_⟩
  · rintro rfl
    unfold resolveRegular get_close_and_prev_close_yfinance
    simp [List.reverse_append]
  · intro h
    unfold resolveRegular
    rw [h]
    cases q <;> rfl
  · rintro (rfl | ⟨rows, hlen, rfl⟩)
    · rfl
    · unfold get_close_and_prev_close_yfinance
      rcases rows with _ | ⟨⟨ad, ac⟩, _ | ⟨⟨bd, bc⟩, t⟩⟩
      · rfl
      · rfl
      · simp only [List.length_cons] at hlen
        omega

/-- Witness for C4: a two-row series resolves to its last two closes; a
raising series with both snapshot fields resolves to them; a single-row
series fails the primary. -/
theorem C4_witness :
    resolveRegular (some [("2025-01-02", 90), ("2025-01-03", 100)]) none = some (100, 90)
    ∧ resolveRegular none (some ⟨some 90, some 100, none⟩) = some (100, 90)
    ∧ resolveRegular none (some ⟨some 90, none, none⟩) = none
    ∧ get_close_and_prev_close_yfinance (some [("2025-01-03", 100)]) = none := by
  refine ⟨?_, ?_, ?_, ?_⟩
  · exact (C4_regular_fallback _ none [] "2025-01-03" "2025-01-02" 100 90).1 rfl
  · exact (C4_regular_fallback none (some ⟨some 90, some 100, none⟩) [] "" "" 0 0).2.1 rfl
  · exact (C4_regular_fallback none (some ⟨some 90, none, none⟩) [] "" "" 0 0).2.1 rfl
  · exact (C4_regular_fallback (some [("2025-01-03", 100)]) none [] "" "" 0 0).2.2
      (Or.inr ⟨[("2025-01-03", 100)], by simp, rfl⟩)

/-! ### Extended-hours resolution and fallback (claim C5) -/

/-- C5: when the primary intraday series fails, extended-hours resolution
consults only the snapshot's explicit `postMarketPrice` field; if that
field is absent the extended price stays absent — a pre-market or
regular-session price is never substituted. -/
theorem C5_extended_fallback (df : Option (List (Int × ℚ))) (q : Option QuoteRow)
    (h : get_extended_last_yfinance df = none) :
    resolveExtended df q
        = (match q with | some row => row.postMarketPrice | none => none)
    ∧ (∀ row, q = some row → row.postMarketPrice = none → resolveExtended df q = none) := by
  constructor
  · unfold resolveExtended
    rw [h]
    cases q <;> rfl
  · rintro row rfl hpost
    unfold resolveExtended
    rw [h]
    simpa using hpost

/-- Witness for C5: with a failing intraday series and a snapshot row that
has regular-session prices but no `postMarketPrice`, the extended price is
absent; with `postMarketPrice` present it is used. -/
theorem C5_witness :
    resolveExtended none (some ⟨some 1, some 2, none⟩) = none
    ∧ resolveExtended none (some ⟨some 1, some 2, some 7⟩) = some 7 :=
  ⟨(C5_extended_fallback none (some ⟨some 1, some 2, none⟩) rfl).2 _ rfl rfl,
   (C5_extended_fallback none (some ⟨some 1, some 2, some 7⟩) rfl).1⟩

/-! ### Percentage rendering (claim C6) -/

/-- C6: with prior close, close, and extended price all available and the
denominators nonzero, the line renders
`closePct = (close/prevClose − 1) × 100` and
`afterPct = (extended/close − 1) × 100`, each with a forced sign and one
decimal place; at close=100, prevClose=90, extended=95 this is
`+11.1%` and `-5.0%`. -/
theorem C6_percent_format (name : String) (c p e : ℚ) (hp : p ≠ 0) (hc : c ≠ 0) :
    tickerLine name (some (c, p)) (some e)
      = name ++ " " ++ fmtPct ((c / p - 1) * 100) ++ "% 마감, 애프터 "
        ++ fmtPct ((e / c - 1) * 100) ++ "%"
    ∧ tickerLine "X" (some (100, 90)) (some 95) = "X +11.1% 마감, 애프터 -5.0%" := by
  constructor
  · simp only [tickerLine]
    rw [if_neg hp, if_pos hc]
  · have h1 : fmtPct (((100 : ℚ) / 90 - 1) * 100) = "+11.1" := by
      have hx : ((100 : ℚ) / 90 - 1) * 100 = 100 / 9 := by norm_num
      have habs : |(100 : ℚ) / 9| * 10 = 1000 / 9 := by
        rw [abs_of_nonneg (by norm_num : (0 : ℚ) ≤ 100 / 9)]
        norm_num
      have hfl : ⌊(1000 : ℚ) / 9⌋ = (111 : ℤ) := by
        rw [Int.floor_eq_iff]; norm_num
      have hr : roundHalfEven ((1000 : ℚ) / 9) = 111 :=
        roundHalfEven_eval _ _ hfl (by push_cast; norm_num)
      unfold fmtPct
      rw [hx, habs, hr, if_neg (by norm_num : ¬ ((100 : ℚ) / 9 < 0))]
      rfl
    have h2 : fmtPct (((95 : ℚ) / 100 - 1) * 100) = "-5.0" := by
      have hx : ((95 : ℚ) / 100 - 1) * 100 = -5 := by norm_num
      have habs : |(-5 : ℚ)| * 10 = 50 := by
        rw [abs_of_nonpos (by norm_num : (-5 : ℚ) ≤ 0)]
        norm_num
      have hfl : ⌊(50 : ℚ)⌋ = (50 : ℤ) := by
        rw [Int.floor_eq_iff]; norm_num
      have hr : roundHalfEven ((50 : ℚ)) = 50 :=
        roundHalfEven_eval _ _ hfl (by push_cast; norm_num)
      unfold fmtPct
      rw [hx, habs, hr, if_pos (by norm_num : ((-5 : ℚ) < 0))]
      rfl
    simp only [tickerLine]
    rw [if_neg (by norm_num : ¬ ((90 : ℚ) = 0)), if_pos (by norm_num : ((100 : ℚ) ≠ 0))]
    rw [show ((100 : ℚ) / 90 - 1) * 100 = ((100 : ℚ) / 90 - 1) * 100 from rfl, h1,
      show ((95 : ℚ) / 100 - 1) * 100 = ((95 : ℚ) / 100 - 1) * 100 from rfl, h2]
    rfl

/-- Witness for C6 at close=100, prevClose=90, extended=95. -/
theorem C6_witness :
    ((90 : ℚ) ≠ 0) ∧ ((100 : ℚ) ≠ 0)
    ∧ tickerLine "X" (some (100, 90)) (some 95)
        = "X" ++ " " ++ fmtPct (((100 : ℚ) / 90 - 1) * 100) ++ "% 마감, 애프터 "
          ++ fmtPct (((95 : ℚ) / 100 - 1) * 100) ++ "%" :=
  ⟨by norm_num, by norm_num,
   (C6_percent_format "X" 100 90 95 (by norm_num) (by norm_num)).1⟩

/-! ### Send gating in `main` (claim C2) -/

/-- C2 (amended): the report `tg_send` is attempted iff the force override
or the 06:30–06:45 window holds, the post-update `lastSentDate` differs
from today, AND a destination chat id is known; `lastSentDate` becomes
today exactly when the send succeeds and is otherwise unchanged; the
window is hour 6 with minute in 30–45 inclusive. -/
theorem C2_send_gating (cfg : Config) (fetch : Option (List Update)) (force_send : Bool)
    (hour minute : Nat) (today : String) (sendOk : Bool) (md : Market)
    (month day : Nat) (wk : Fin 7) (st0 : BotState) :
    ((pyMain cfg fetch force_send hour minute today sendOk md month day wk st0).sendAttempted
        = true ↔
      ((force_send = true ∨ in_send_window_kst hour minute = true)
        ∧ (handle_updates cfg st0 fetch).state.last_sent_kst_date ≠ some today
        ∧ (handle_updates cfg st0 fetch).state.chat_id ≠ none))
    ∧ (pyMain cfg fetch force_send hour minute today sendOk md month day wk st0).reportSent
        = ((pyMain cfg fetch force_send hour minute today sendOk md month day wk
              st0).sendAttempted && sendOk)
    ∧ (pyMain cfg fetch force_send hour minute today sendOk md month day wk
          st0).state.last_sent_kst_date
        = (if (pyMain cfg fetch force_send hour minute today sendOk md month day wk
                st0).reportSent = true
           then some today
           else (handle_updates cfg st0 fetch).state.last_sent_kst_date)
    ∧ (in_send_window_kst hour minute = true ↔ (hour = 6 ∧ 30 ≤ minute ∧ minute ≤ 45)) := by
  have hwin : in_send_window_kst hour minute = true
      ↔ (hour = 6 ∧ 30 ≤ minute ∧ minute ≤ 45) := by
    unfold in_send_window_kst
    split
    · rename_i h
      simp [h]
    · rename_i h
      rw [not_ne_iff] at h
      simp [h]
  simp only [pyMain]
  by_cases hg : ((force_send = true ∨ in_send_window_kst hour minute = true)
      ∧ (handle_updates cfg st0 fetch).state.last_sent_kst_date ≠ some today)
  · rw [if_pos hg]
    cases hc : (handle_updates cfg st0 fetch).state.chat_id with
    | none =>
      refine ⟨?_, rfl, rfl, hwin⟩
      simp [hc]
    | some cid =>
      cases sendOk with
      | true =>
        refine ⟨?_, rfl, rfl, hwin⟩
        simp [hc, hg.1, hg.2]
      | false =>
        refine ⟨?_, rfl, rfl, hwin⟩
        simp [hc, hg.1, hg.2]
  · rw [if_neg hg]
    refine ⟨?_, rfl, rfl, hwin⟩
    constructor
    · intro h
      simp at h
    · rintro ⟨h1, h2, h3⟩
      exact absurd ⟨h1, h2⟩ hg

/-- Counterexample to C2 as stated: with the force override set, today not
yet sent, but no chat id learned yet, both claimed gates pass and still no
send is attempted (`main` only prints a hint). -/
theorem C2_counterexample :
    (pyMain ⟨1, none⟩ (some []) true 12 0 "2026-10-12" true
        ⟨fun _ => none, fun _ => none, fun _ => none⟩ 10 12 0
        ⟨none, none, none, none, none, false⟩).sendAttempted = false
    ∧ ((true : Bool) = true ∨ in_send_window_kst 12 0 = true)
    ∧ (handle_updates ⟨1, none⟩ ⟨none, none, none, none, none, false⟩
          (some [])).state.last_sent_kst_date ≠ some "2026-10-12" := by
  refine ⟨rfl, Or.inl rfl, by decide⟩

/-! ### Authorization is a silent no-op (claim C9) -/

/-- C9 (amended): an update whose sender is not the allowed user — or, when
a NONZERO destination lock is configured, whose chat differs from it — is
dropped after the watermark line: no reply is sent, nothing raises, and no
state field other than `last_update_id` changes. -/
theorem C9_unauthorized_frame (cfg : Config) (st : BotState) (u : Update) (msg : Message)
    (hm : u.message = some msg)
    (hun : msg.from_id ≠ some cfg.allowed_user_id
      ∨ ∃ c, cfg.force_chat_id = some c ∧ c ≠ 0 ∧ msg.chat_id ≠ some c) :
    processUpdate cfg st u = ⟨watermark st u, [], false⟩ := by
  simp only [processUpdate, hm]
  unfold processMessage
  rcases hun with h | ⟨c, hc, hc0, hcm⟩
  · rw [if_pos h]
  · by_cases h1 : msg.from_id ≠ some cfg.allowed_user_id
    · rw [if_pos h1]
    · rw [if_neg h1, if_pos ?_]
      unfold forceChatBlocks
      rw [hc]
      simp [bne_iff_ne, hc0, hcm]

/-- Witness for C9: a message from user 2 when only user 1 is allowed is
dropped with only the watermark updated. -/
theorem C9_witness :
    (⟨some 7, some ⟨some 2, some 5, "/add MU"⟩⟩ : Update).message
        = some ⟨some 2, some 5, "/add MU"⟩
    ∧ ((some 2 : Option Int) ≠ some ((⟨1, none⟩ : Config).allowed_user_id))
    ∧ processUpdate ⟨1, none⟩ ⟨none, none, some ["MU"], none, none, false⟩
          ⟨some 7, some ⟨some 2, some 5, "/add MU"⟩⟩
        = ⟨watermark ⟨none, none, some ["MU"], none, none, false⟩
              ⟨some 7, some ⟨some 2, some 5, "/add MU"⟩⟩, [], false⟩ :=
  ⟨rfl, by decide,
   C9_unauthorized_frame ⟨1, none⟩ ⟨none, none, some ["MU"], none, none, false⟩
     ⟨some 7, some ⟨some 2, some 5, "/add MU"⟩⟩ ⟨some 2, some 5, "/add MU"⟩ rfl
     (Or.inl (by decide))⟩

/-- Counterexample to C9 as stated: a destination lock CONFIGURED AS `0` is
skipped by Python truthiness, so an authorized sender in a chat different
from the lock still gets a reply. -/
theorem C9_counterexample :
    (⟨1, some 0⟩ : Config).force_chat_id = some 0
    ∧ ((some 5 : Option Int) ≠ some (0 : Int))
    ∧ (processUpdate ⟨1, some 0⟩ ⟨none, none, some ["MU"], none, none, false⟩
          ⟨some 7, some ⟨some 1, some 5, "/list"⟩⟩).sent
        = [(some 5, "Tickers: MU")] := by
  refine ⟨rfl, by decide, by decide⟩

/-! ### Report structure (claim C3) -/

theorem map_normalize_filter_id (L : List String)
    (h : ∀ t ∈ L, normalize_ticker t = t ∧ t ≠ "") :
    ((L.map normalize_ticker).filter (fun t => t != "")) = L := by
  induction L with
  | nil => rfl
  | cons a l ih =>
    obtain ⟨ha, ha0⟩ := h a (List.mem_cons_self a l)
    simp only [List.map_cons, List.filter_cons, ha]
    rw [if_pos (by simpa [bne_iff_ne] using ha0)]
    rw [ih (fun t ht => h t (List.mem_cons_of_mem a ht))]

/-- C3: for a non-empty watchlist of normalized tickers the report is the
header followed by exactly one line per ticker in stored order; each line
uses the alias as display name when present and the symbol otherwise, and a
ticker with neither regular-session nor extended data resolvable gets
exactly the explicit insufficient-data line. -/
theorem C3_report_lines (md : Market) (month day : Nat) (wk : Fin 7) (st : BotState)
    (L : List String) (ht : st.tickers = some L) (hne : L ≠ [])
    (hnorm : ∀ t ∈ L, normalize_ticker t = t ∧ t ≠ "") :
    build_report md month day wk st
      = String.intercalate "\n"
          (reportHeader month day wk :: L.map (reportLine md (st.names.getD [])))
    ∧ (∀ sym ns, reportLine md ns sym
        = tickerLine ((alookup ns sym).getD sym)
            (resolveRegular (md.daily sym) (md.quote sym))
            (resolveExtended (md.intra sym) (md.quote sym)))
    ∧ (∀ n, tickerLine n none none = n ++ " (데이터 부족)") := by
  refine ⟨?_, fun sym ns => rfl, fun n => rfl⟩
  have hL : L.isEmpty = false := by
    cases L with
    | nil => exact absurd rfl hne
    | cons a l => rfl
  simp only [build_report, ht, Option.getD_some, map_normalize_filter_id L hnorm, hL]
  rfl

/-- Market data for the C3 witness: MU has full regular and extended data,
NVDA resolves nothing from either source. -/
def mdW : Market :=
  ⟨fun s => if s == "MU" then some [("2025-01-02", 90), ("2025-01-03", 100)] else none,
   fun s => if s == "MU" then some [(1, 95)] else none,
   fun _ => none⟩

/-- Watchlist state for the C3 witness. -/
def stW : BotState :=
  ⟨none, none, some ["MU", "NVDA"], some [("MU", "마이크론")], none, false⟩

/-- Witness for C3 on watchlist `["MU","NVDA"]` with an alias for MU. -/
theorem C3_witness :
    stW.tickers = some ["MU", "NVDA"]
    ∧ build_report mdW 10 12 0 stW
      = String.intercalate "\n"
          (reportHeader 10 12 0 :: (["MU", "NVDA"]).map (reportLine mdW (stW.names.getD []))) :=
  ⟨rfl, (C3_report_lines mdW 10 12 0 stW ["MU", "NVDA"] rfl (by decide) (by decide)).1⟩

/-! ### `/add` then `/del` (claim C7) -/

theorem execCmd_add (st : BotState) (chat : Option Int) (a : String) (toks : List String) :
    execCmd st chat ⟨some "/add", a, toks⟩ = cmdAdd st chat toks := by
  simp [execCmd]

theorem execCmd_del (st : BotState) (chat : Option Int) (a : String) (toks : List String) :
    execCmd st chat ⟨some "/del", a, toks⟩ = cmdDel st chat toks := by
  simp [execCmd]

theorem execCmd_unname (st : BotState) (chat : Option Int) (a : String)
    (toks : List String) :
    execCmd st chat ⟨some "/unname", a, toks⟩ = cmdUnname st chat toks := by
  simp [execCmd]

theorem cmdAdd_spec (st : BotState) (chat : Option Int) (toks L : List String)
    (ht : st.tickers = some L) :
    (cmdAdd st chat toks).state.tickers = some (pySortedSet (L ++ toks))
    ∧ (cmdAdd st chat toks).raised = false := by
  by_cases h : pySortedSet (L ++ toks) ≠ L
  · constructor <;> simp [cmdAdd, ht, h]
  · rw [not_ne_iff] at h
    constructor <;> simp [cmdAdd, ht, h]

theorem cmdDel_spec (st : BotState) (chat : Option Int) (toks L : List String)
    (ht : st.tickers = some L) :
    (cmdDel st chat toks).state.tickers
        = some (pySortedSet (L.filter (fun t => !(toks.contains t))))
    ∧ (cmdDel st chat toks).raised = false := by
  simp only [cmdDel, ht, Option.getD_some]
  by_cases h : pySortedSet (L.filter (fun t => !(toks.contains t))) ≠ L
  · rw [if_pos h]
    exact ⟨rfl, rfl⟩
  · rw [if_neg h, ht]
    rw [not_ne_iff] at h
    refine ⟨?_, rfl⟩
    rw [h]
    exact ht

theorem processMessage_add_spec (cfg : Config) (st : BotState) (msg : Message)
    (a : String) (toks L : List String)
    (hau : msg.from_id = some cfg.allowed_user_id)
    (hfc : forceChatBlocks cfg.force_chat_id msg.chat_id = false)
    (hp : parse_cmd msg.text = ⟨some "/add", a, toks⟩)
    (ht : st.tickers = some L) :
    (processMessage cfg st msg).state.tickers = some (pySortedSet (L ++ toks))
    ∧ (processMessage cfg st msg).raised = false := by
  have h1 : ¬(msg.from_id ≠ some cfg.allowed_user_id) := by simp [hau]
  have h2 : ¬(forceChatBlocks cfg.force_chat_id msg.chat_id = true) := by simp [hfc]
  simp only [processMessage, if_neg h1, if_neg h2, hp, execCmd_add]
  by_cases hcc : st.chat_id ≠ msg.chat_id
  · rw [if_pos hcc]
    exact cmdAdd_spec _ _ _ L ht
  · rw [if_neg hcc]
    exact cmdAdd_spec _ _ _ L ht

theorem processMessage_del_spec (cfg : Config) (st : BotState) (msg : Message)
    (a : String) (toks L : List String)
    (hau : msg.from_id = some cfg.allowed_user_id)
    (hfc : forceChatBlocks cfg.force_chat_id msg.chat_id = false)
    (hp : parse_cmd msg.text = ⟨some "/del", a, toks⟩)
    (ht : st.tickers = some L) :
    (processMessage cfg st msg).state.tickers
        = some (pySortedSet (L.filter (fun t => !(toks.contains t))))
    ∧ (processMessage cfg st msg).raised = false := by
  have h1 : ¬(msg.from_id ≠ some cfg.allowed_user_id) := by simp [hau]
  have h2 : ¬(forceChatBlocks cfg.force_chat_id msg.chat_id = true) := by simp [hfc]
  simp only [processMessage, if_neg h1, if_neg h2, hp, execCmd_del]
  by_cases hcc : st.chat_id ≠ msg.chat_id
  · rw [if_pos hcc]
    exact cmdDel_spec _ _ _ L ht
  · rw [if_neg hcc]
    exact cmdDel_spec _ _ _ L ht

theorem pySortedSet_add_del (L toks : List String)
    (hs : L.Sorted (fun a b => strLe a b = true)) (hn : L.Nodup)
    (hdisj : ∀ t ∈ toks, t ∉ L) :
    pySortedSet ((pySortedSet (L ++ toks)).filter (fun t => !(toks.contains t))) = L := by
  apply pySortedSet_eq_of_mem_iff hs hn
  intro x
  constructor
  · intro hx
    rw [List.mem_filter] at hx
    obtain ⟨hx1, hx2⟩ := hx
    rw [mem_pySortedSet, List.mem_append] at hx1
    have hx2' : x ∉ toks := by simpa using hx2
    rcases hx1 with h | h
    · exact h
    · exact absurd h hx2'
  · intro hx
    rw [List.mem_filter]
    refine ⟨?_, ?_⟩
    · rw [mem_pySortedSet, List.mem_append]
      exact Or.inl hx
    · have hxt : x ∉ toks := fun hxt => hdisj x hxt hx
      simpa using hxt

/-- C7 (amended): for a sorted duplicate-free watchlist, an authorized
`/add` of a token set DISJOINT from the current watchlist followed by an
authorized `/del` of the same set returns the tickers list to its prior
sorted content (without disjointness, `/del` also removes the previously
present tickers). -/
theorem C7_add_del_roundtrip (cfg : Config) (st : BotState) (m1 m2 : Message)
    (a1 a2 : String) (toks L : List String)
    (hau1 : m1.from_id = some cfg.allowed_user_id)
    (hau2 : m2.from_id = some cfg.allowed_user_id)
    (hfc1 : forceChatBlocks cfg.force_chat_id m1.chat_id = false)
    (hfc2 : forceChatBlocks cfg.force_chat_id m2.chat_id = false)
    (hp1 : parse_cmd m1.text = ⟨some "/add", a1, toks⟩)
    (hp2 : parse_cmd m2.text = ⟨some "/del", a2, toks⟩)
    (ht : st.tickers = some L)
    (hs : L.Sorted (fun a b => strLe a b = true)) (hn : L.Nodup)
    (hdisj : ∀ t ∈ toks, t ∉ L) :
    ((processMessage cfg (processMessage cfg st m1).state m2).state).tickers = some L := by
  have h1 := processMessage_add_spec cfg st m1 a1 toks L hau1 hfc1 hp1 ht
  have h2 := processMessage_del_spec cfg (processMessage cfg st m1).state m2 a2 toks
    (pySortedSet (L ++ toks)) hau2 hfc2 hp2 h1.1
  rw [h2.1, pySortedSet_add_del L toks hs hn hdisj]

/-- Witness for C7: add then delete `NVDA` on the watchlist `["AAPL"]`. -/
theorem C7_witness :
    parse_cmd "/add NVDA" = ⟨some "/add", "NVDA", ["NVDA"]⟩
    ∧ (∀ t ∈ ["NVDA"], t ∉ ["AAPL"])
    ∧ ((processMessage ⟨1, none⟩
          (processMessage ⟨1, none⟩ ⟨none, none, some ["AAPL"], none, none, false⟩
            ⟨some 1, some 5, "/add NVDA"⟩).state
          ⟨some 1, some 5, "/del NVDA"⟩).state).tickers = some ["AAPL"] :=
  ⟨by decide, by decide,
   C7_add_del_roundtrip ⟨1, none⟩ ⟨none, none, some ["AAPL"], none, none, false⟩
     ⟨some 1, some 5, "/add NVDA"⟩ ⟨some 1, some 5, "/del NVDA"⟩
     "NVDA" "NVDA" ["NVDA"] ["AAPL"]
     rfl rfl rfl rfl (by decide) (by decide) rfl (by decide) (by decide) (by decide)⟩

/-- Counterexample to C7 as stated: adding an ALREADY-PRESENT ticker and
then deleting the same set empties the watchlist instead of restoring it. -/
theorem C7_counterexample :
    ((processMessage ⟨1, none⟩
          (processMessage ⟨1, none⟩ ⟨none, none, some ["MU"], none, none, false⟩
            ⟨some 1, some 5, "/add MU"⟩).state
          ⟨some 1, some 5, "/del MU"⟩).state).tickers = some []
    ∧ some [] ≠ some ["MU"] := by
  refine ⟨by decide, by decide⟩

/-! ### `/unname` (claim C8) -/

theorem alookup_eq_none_iff (ns : List (String × String)) (k : String) :
    alookup ns k = none ↔ ∀ p ∈ ns, p.1 ≠ k := by
  induction ns with
  | nil => simp [alookup]
  | cons p ps ih =>
    by_cases h : p.1 = k
    · simp [alookup, h]
    · simp [alookup, h, ih]

theorem alookup_aerase_ne (ns : List (String × String)) (k k' : String) (h : k' ≠ k) :
    alookup (aerase ns k) k' = alookup ns k' := by
  induction ns with
  | nil => rfl
  | cons p ps ih =>
    simp only [aerase, List.filter_cons]
    by_cases hpk : p.1 = k
    · rw [if_neg (by simp [hpk])]
      simp only [alookup]
      rw [if_neg (by rw [hpk]; exact fun he => h he.symm)]
      exact ih
    · rw [if_pos (by simpa [bne_iff_ne] using hpk)]
      simp only [alookup]
      by_cases hp' : p.1 = k'
      · rw [if_pos hp', if_pos hp']
      · rw [if_neg hp', if_neg hp']
        exact ih

theorem unnameRun_names (toks : List String) :
    ∀ ns, (unnameRun ns toks).1 = ns.filter (fun p => !(toks.contains p.1)) := by
  induction toks with
  | nil => intro ns; simp [unnameRun]
  | cons t ts ih =>
    intro ns
    simp only [unnameRun]
    by_cases hm : amem ns t = true
    · rw [if_pos hm]
      show (unnameRun (aerase ns t) ts).1 = _
      rw [ih (aerase ns t)]
      unfold aerase
      rw [List.filter_filter]
      apply List.filter_congr
      intro p _
      by_cases hd : p.1 = t <;> simp [hd, bne_iff_ne, Bool.and_comm, List.contains_cons]
    · rw [if_neg hm]
      rw [ih ns]
      apply List.filter_congr
      intro p hp
      have hne : p.1 ≠ t := by
        have := (alookup_eq_none_iff ns t).mp (by
          revert hm
          unfold amem
          cases alookup ns t <;> simp)
        exact this p hp
      simp [List.contains_cons, hne]

theorem alookup_aerase_self (ns : List (String × String)) (t : String) :
    alookup (aerase ns t) t = none := by
  rw [alookup_eq_none_iff]
  intro p hp
  have h2 := (List.mem_filter.mp hp).2
  simpa [bne_iff_ne] using h2

/-- First-occurrence deduplication (the order in which `/unname` can
actually remove keys: a repeated token finds its key already deleted).
`seen` holds the tokens already processed. -/
def dedupFirstAux : List String → List String → List String
  | _, [] => []
  | seen, t :: ts =>
    if seen.contains t then dedupFirstAux seen ts
    else t :: dedupFirstAux (t :: seen) ts

/-- The tokens of `l` with every repeat after the first removed. -/
def dedupFirst (l : List String) : List String := dedupFirstAux [] l

theorem contains_eq_false_of_mem_dedupFirstAux :
    ∀ (l seen : List String) (x : String),
      x ∈ dedupFirstAux seen l → seen.contains x = false := by
  intro l
  induction l with
  | nil =>
    intro seen x h
    simp [dedupFirstAux] at h
  | cons t ts ih =>
    intro seen x h
    simp only [dedupFirstAux] at h
    by_cases hc : seen.contains t = true
    · rw [if_pos hc] at h
      exact ih seen x h
    · rw [if_neg hc] at h
      rcases List.mem_cons.mp h with rfl | h2
      · simpa using hc
      · have h3 := ih (t :: seen) x h2
        simp only [List.contains_cons, Bool.or_eq_false_iff] at h3
        exact h3.2

/-- The removal loop records exactly the first occurrence of each token
that is a key of the current map; tokens in `seen` are known non-keys. -/
theorem unnameRun_removed_general :
    ∀ (toks : List String) (ns : List (String × String)) (seen : List String),
      (∀ s, seen.contains s = true → amem ns s = false) →
      (unnameRun ns toks).2 = (dedupFirstAux seen toks).filter (fun t => amem ns t) := by
  intro toks
  induction toks with
  | nil =>
    intro ns seen _
    rfl
  | cons t ts ih =>
    intro ns seen hseen
    simp only [unnameRun, dedupFirstAux]
    by_cases hc : seen.contains t = true
    · have hm : amem ns t = false := hseen t hc
      rw [if_pos hc, if_neg (by simp [hm])]
      exact ih ns seen hseen
    · rw [if_neg hc]
      by_cases hm : amem ns t = true
      · rw [if_pos hm, List.filter_cons, if_pos hm]
        show t :: (unnameRun (aerase ns t) ts).2 = t :: _
        congr 1
        have hinv : ∀ s, (t :: seen).contains s = true → amem (aerase ns t) s = false := by
          intro s hs
          rw [List.contains_cons] at hs
          rcases (Bool.or_eq_true _ _).mp hs with h1 | h2
          · have hst : s = t := by simpa using h1
            subst hst
            unfold amem
            rw [alookup_aerase_self]
            rfl
          · have hst : s ≠ t := by
              intro he
              rw [he] at h2
              exact absurd h2 (by simpa using hc)
            have h4 := hseen s h2
            unfold amem at h4 ⊢
            rw [alookup_aerase_ne ns t s hst]
            exact h4
        rw [ih (aerase ns t) (t :: seen) hinv]
        apply List.filter_congr
        intro x hx
        have hx1 := contains_eq_false_of_mem_dedupFirstAux ts (t :: seen) x hx
        simp only [List.contains_cons, Bool.or_eq_false_iff] at hx1
        have hxt : x ≠ t := by
          intro he
          rw [he] at hx1
          simpa using hx1.1
        unfold amem
        rw [alookup_aerase_ne ns t x hxt]
      · rw [if_neg hm, List.filter_cons, if_neg hm]
        refine ih ns (t :: seen) ?_
        intro s hs
        rw [List.contains_cons] at hs
        rcases (Bool.or_eq_true _ _).mp hs with h1 | h2
        · have hst : s = t := by simpa using h1
          subst hst
          simpa using hm
        · exact hseen s h2

/-- The reply list of `/unname`: the tokens' first occurrences, filtered to
the keys of the original map. -/
theorem unnameRun_removed_eq (ns : List (String × String)) (toks : List String) :
    (unnameRun ns toks).2 = (dedupFirst toks).filter (fun t => amem ns t) :=
  unnameRun_removed_general toks ns []
    (by intro s hs; simp at hs)

/-- C8 (amended): for a NON-EMPTY alias map and a non-empty token list
(duplicate tokens allowed), `/unname` removes exactly the present keys
among the tokens and replies with the list of keys actually removed — each
key once, at its first occurrence — or `No matches.` when none of the
tokens existed as keys; when the alias map is empty or missing the reply is
the empty-marker `Names: (empty)` instead and nothing changes. -/
theorem C8_unname (st : BotState) (chat : Option Int) (ns : List (String × String))
    (toks : List String) (a : String)
    (hns : st.names = some ns) (hne : ns.isEmpty = false) (htoks : toks.isEmpty = false) :
    (execCmd st chat ⟨some "/unname", a, toks⟩).state.names
        = some (ns.filter (fun p => !(toks.contains p.1)))
    ∧ (execCmd st chat ⟨some "/unname", a, toks⟩).sent
        = [(chat, if ((dedupFirst toks).filter (fun t => amem ns t)).isEmpty
                  then "No matches."
                  else "Removed: "
                    ++ joinComma ((dedupFirst toks).filter (fun t => amem ns t)))] := by
  rw [execCmd_unname]
  constructor
  · simp only [cmdUnname, htoks, hns, hne, Bool.false_eq_true, if_false]
    rw [unnameRun_names toks ns]
  · simp only [cmdUnname, htoks, hns, hne, Bool.false_eq_true, if_false]
    rw [unnameRun_removed_eq]

/-- Witness for C8: `/unname MU MU X` (a duplicate token and a non-key) on
aliases for MU and NVDA removes MU once and reports exactly `Removed: MU`. -/
theorem C8_witness :
    (execCmd ⟨none, none, none, some [("MU", "m"), ("NVDA", "n")], none, false⟩ (some 9)
        ⟨some "/unname", "MU MU X", ["MU", "MU", "X"]⟩).state.names = some [("NVDA", "n")]
    ∧ (execCmd ⟨none, none, none, some [("MU", "m"), ("NVDA", "n")], none, false⟩ (some 9)
        ⟨some "/unname", "MU MU X", ["MU", "MU", "X"]⟩).sent = [(some 9, "Removed: MU")] :=
  ⟨(C8_unname ⟨none, none, none, some [("MU", "m"), ("NVDA", "n")], none, false⟩ (some 9)
      [("MU", "m"), ("NVDA", "n")] ["MU", "MU", "X"] "MU MU X" rfl rfl rfl).1,
   (C8_unname ⟨none, none, none, some [("MU", "m"), ("NVDA", "n")], none, false⟩ (some 9)
      [("MU", "m"), ("NVDA", "n")] ["MU", "MU", "X"] "MU MU X" rfl rfl rfl).2⟩

/-- Counterexample to C8 as stated: on an EMPTY alias map, where none of
the tokens exist as keys, the reply is the empty-marker, not
`No matches.`. -/
theorem C8_counterexample :
    (execCmd ⟨none, none, none, some [], none, false⟩ (some 9)
        ⟨some "/unname", "MU", ["MU"]⟩).sent = [(some 9, "Names: (empty)")]
    ∧ "Names: (empty)" ≠ "No matches." := by
  refine ⟨by decide, by decide⟩

end StockBot
